import Mathlib

/-!
Verification of the FGSM adversarial-attack tutorial notebook
(`fgsm_tutorial.ipynb`).

The notebook's numeric computations are embedded shallowly over exact
rationals: an image tensor is a flattened `List ℚ` of pixel values, a
test-set batch at batch size 1 is a `Sample` (a data tensor and an integer
class label), and the pretrained network is an abstract `Model` consisting
of its classification function (the argmax of the forward pass) and the
gradient of the NLL loss with respect to the input data (produced in the
source by `loss.backward()`).
-/

namespace FGSM

/-- `torch.sign`, element level: -1 for negative, 0 for zero, 1 for positive. -/
def sign (x : ℚ) : ℚ :=
  if x < 0 then -1 else if x = 0 then 0 else 1

/-- `torch.clamp(x, lo, hi)` at the element level: `min (max x lo) hi`. -/
def clamp (x lo hi : ℚ) : ℚ :=
  min (max x lo) hi

/-- The `fgsm_attack` function of the notebook, translated line by line:
collect the element-wise sign of the gradient, add `epsilon` times it to
the image, and clamp the result to the `[0,1]` range. -/
def fgsm_attack (image : List ℚ) (epsilon : ℚ) (data_grad : List ℚ) : List ℚ :=
  let sign_data_grad := data_grad.map sign
  let perturbed_image := List.zipWith (fun p s => p + epsilon * s) image sign_data_grad
  perturbed_image.map (fun p => clamp p 0 1)

/-- The MNIST normalization mean `0.1307` used throughout the notebook. -/
def mnist_mean : ℚ := 1307 / 10000

/-- The MNIST normalization standard deviation `0.3081`. -/
def mnist_std : ℚ := 3081 / 10000

/-- The notebook's `denorm`: restore a batch to its original scale,
`batch * std + mean` element-wise (single channel, so the broadcast
`std.view(1,-1,1,1)` is a scalar multiply). -/
def denorm (batch : List ℚ) (mean std : ℚ) : List ℚ :=
  batch.map (fun x => x * std + mean)

/-- `transforms.Normalize((mean,), (std,))`: `(x - mean) / std` element-wise. -/
def normalize (batch : List ℚ) (mean std : ℚ) : List ℚ :=
  batch.map (fun x => (x - mean) / std)

/-- The element-wise operation named by the spec sentence for `fgsm_attack`:
"perturb pixel values by epsilon times the sign of an input gradient, clip
to range", i.e. `clamp(image + epsilon * sign(data_grad), 0, 1)` applied
pixel by pixel. Written from the spec's words, to be compared with the
source translation `fgsm_attack`. -/
def fgsmSpec (image : List ℚ) (epsilon : ℚ) (data_grad : List ℚ) : List ℚ :=
  List.zipWith (fun p g => max 0 (min (p + epsilon * sign g) 1)) image data_grad

/-- One batch of the batch-size-1 test loader: a data tensor (already
normalized by the `transforms.Normalize` of the loader pipeline) and its
integer class label (`target.item()`). -/
structure Sample where
  data : List ℚ
  target : ℕ
deriving DecidableEq

/-- The pretrained network, abstracted to the two ways `test` uses it:
`classify x` is `model(x).max(1, keepdim=True)[1].item()`, the argmax of the
forward pass, and `grad x t` is `data.grad.data` after
`F.nll_loss(model(x), t).backward()`, the gradient of the loss with respect
to the input. The network runs in `eval` mode, so both are functions of the
input alone. -/
structure Model where
  classify : List ℚ → ℕ
  grad : List ℚ → ℕ → List ℚ

/-- The loop state of `test`, together with instrumentation counters:
`visited` counts loop iterations, `forwards` counts calls `model(...)` and
`backwards` counts calls `loss.backward()`, following the source's control
flow. -/
structure StepState where
  correct : ℕ
  adv_examples : List (ℕ × ℕ × List ℚ)
  visited : ℕ
  forwards : ℕ
  backwards : ℕ
deriving DecidableEq

/-- `init_pred` of the loop body: the model's prediction on the clean data. -/
def initPred (m : Model) (s : Sample) : ℕ := m.classify s.data

/-- `perturbed_data` of the loop body: denormalize the data, then run
`fgsm_attack` on it with the gradient collected from the backward pass. -/
def perturbedData (m : Model) (epsilon : ℚ) (s : Sample) : List ℚ :=
  fgsm_attack (denorm s.data mnist_mean mnist_std) epsilon (m.grad s.data s.target)

/-- `final_pred` of the loop body: re-classify the perturbed image after
re-applying normalization. -/
def finalPred (m : Model) (epsilon : ℚ) (s : Sample) : ℕ :=
  m.classify (normalize (perturbedData m epsilon s) mnist_mean mnist_std)

/-- The body of the `for data, target in test_loader` loop of `test`,
translated branch by branch. If the initial prediction is already wrong the
sample is skipped (one forward pass only). Otherwise the gradient is taken
(one backward pass), the denormalized data is attacked, the result is
re-normalized and re-classified (a second forward pass); on a correct final
prediction `correct` is incremented and the example is saved only in the
`epsilon = 0` special case (list shorter than 5), otherwise the adversarial
example is saved while fewer than 5 are stored. -/
def testStep (m : Model) (epsilon : ℚ) (st : StepState) (s : Sample) : StepState :=
  if initPred m s ≠ s.target then
    { st with visited := st.visited + 1, forwards := st.forwards + 1 }
  else
    let fp := finalPred m epsilon s
    if fp = s.target then
      { correct := st.correct + 1
        adv_examples :=
          if epsilon = 0 ∧ st.adv_examples.length < 5 then
            st.adv_examples ++ [(initPred m s, fp, perturbedData m epsilon s)]
          else st.adv_examples
        visited := st.visited + 1
        forwards := st.forwards + 2
        backwards := st.backwards + 1 }
    else
      { correct := st.correct
        adv_examples :=
          if st.adv_examples.length < 5 then
            st.adv_examples ++ [(initPred m s, fp, perturbedData m epsilon s)]
          else st.adv_examples
        visited := st.visited + 1
        forwards := st.forwards + 2
        backwards := st.backwards + 1 }

/-- The loop of `test` over the whole test set, starting from
`correct = 0`, `adv_examples = []`. -/
def testFold (m : Model) (epsilon : ℚ) (test_loader : List Sample) : StepState :=
  test_loader.foldl (testStep m epsilon) ⟨0, [], 0, 0, 0⟩

/-- The notebook's `test(model, device, test_loader, epsilon)`: runs the
loop and returns `correct / len(test_loader)` together with the saved
adversarial examples. -/
def test (m : Model) (epsilon : ℚ) (test_loader : List Sample) :
    ℚ × List (ℕ × ℕ × List ℚ) :=
  ((testFold m epsilon test_loader).correct / (test_loader.length : ℚ),
   (testFold m epsilon test_loader).adv_examples)

/-- A sample is counted by `test`: its initial prediction is correct and the
prediction on the attacked, re-normalized image is still correct. -/
def attackSurvives (m : Model) (epsilon : ℚ) (s : Sample) : Bool :=
  decide (initPred m s = s.target ∧ finalPred m epsilon s = s.target)

/-- A sample the model classifies correctly before any attack. -/
def initCorrect (m : Model) (s : Sample) : Bool :=
  decide (initPred m s = s.target)

/-- A sample as actually produced by the notebook's data pipeline: the
gradient tensor has the shape of the data tensor, and the data is the
normalization of an image with pixel values in `[0, 1]` (so its
denormalization lies in `[0, 1]`). -/
def wellFormed (m : Model) (s : Sample) : Prop :=
  (m.grad s.data s.target).length = s.data.length
  ∧ ∀ p ∈ denorm s.data mnist_mean mnist_std, 0 ≤ p ∧ p ≤ 1

/-- A minimal concrete model used to instantiate the theorems: it predicts
class 0 on every input and has constant input gradient `[1]`. -/
def constModel : Model :=
  { classify := fun _ => 0, grad := fun _ _ => [1] }

/-- A concrete normalized sample with pixel value 0 and label 0. -/
def sampleA : Sample := ⟨[0], 0⟩

/-- A concrete normalized sample with pixel value 1 and label 0. -/
def sampleB : Sample := ⟨[1], 0⟩

/-- A model under which the accuracy of `test` strictly increases from
`epsilon = 0.1` to `epsilon = 0.2`: it classifies the clean sample and the
image perturbed with `epsilon = 0.2` as class 0, but the image perturbed with
`epsilon = 0.1` as class 1. -/
def nonMonotoneModel : Model :=
  { classify := fun xs =>
      if xs = [(1231:ℚ)/1027] then 0 else if xs = [(5693:ℚ)/3081] then 0 else 1
    grad := fun _ _ => [1] }

/-- The sample whose denormalization is the pixel value `1/2`, labelled 0. -/
def halfSample : Sample := ⟨[(1231:ℚ)/1027], 0⟩

/-- A model that classifies the out-of-range input `[10]` as class 0 and
everything else as class 1. -/
def outOfRangeModel : Model :=
  { classify := fun xs => if xs = [(10:ℚ)] then 0 else 1
    grad := fun _ _ => [1] }

/-- A sample whose data tensor is not in the range the normalization
pipeline produces: its denormalization exceeds 1. -/
def outOfRangeSample : Sample := ⟨[(10:ℚ)], 0⟩

/-- A state dict, as far as this program observes it: named weight tensors. -/
abbrev StateDict := List (String × List ℚ)

/-- Modelled from the spec: `torch.load(pretrained_model, ...)` is
third-party library code not in this repository. The spec describes "a
tutorial-level file-not-found error shown as an example artifact": loading
reads the file at `path` from the filesystem `fs` and raises a
`FileNotFoundError` when it does not exist. -/
def torchLoad (fs : String → Option StateDict) (path : String) :
    Except String StateDict :=
  match fs path with
  | none => Except.error ("FileNotFoundError: " ++ path)
  | some sd => Except.ok sd

/-- Modelled from the spec: the notebook's setup cell calls
`model.load_state_dict(torch.load(pretrained_model, ...))` with no
surrounding try/except anywhere in the program, so an error raised by the
load short-circuits the rest of the run (`rest`), and a successful load
hands the state dict to it. -/
def loadAndRun (fs : String → Option StateDict) (path : String)
    (rest : StateDict → List ℚ) : Except String (List ℚ) :=
  (torchLoad fs path).map rest

lemma clamp01_eq (x : ℚ) : clamp x 0 1 = max 0 (min x 1) := by
  unfold clamp
  rcases le_total x 0 with h0 | h0
  · rw [max_eq_right h0, min_eq_left zero_le_one, min_eq_left (h0.trans zero_le_one),
      max_eq_left h0]
  · rcases le_total x 1 with h1 | h1
    · rw [max_eq_left h0, min_eq_left h1, max_eq_right h0]
    · rw [max_eq_left h0, min_eq_right h1, max_eq_right zero_le_one]

/-- C1: `fgsm_attack(image, epsilon, data_grad)` computes, pixel by pixel,
`clamp(image + epsilon * sign(data_grad), 0, 1)`: the source translation
agrees with the spec's element-wise description on every input. -/
theorem fgsm_attack_eq_spec (image : List ℚ) (epsilon : ℚ) (data_grad : List ℚ) :
    fgsm_attack image epsilon data_grad = fgsmSpec image epsilon data_grad := by
  simp only [fgsm_attack, fgsmSpec]
  rw [List.map_zipWith, List.zipWith_map_right]
  congr 1
  funext p g
  exact clamp01_eq _

/-- C2: every pixel of the image returned by `fgsm_attack` lies in `[0, 1]`,
with no assumption on the range of the input pixels. -/
theorem fgsm_attack_pixel_range (image : List ℚ) (epsilon : ℚ) (data_grad : List ℚ)
    (p : ℚ) (hp : p ∈ fgsm_attack image epsilon data_grad) : 0 ≤ p ∧ p ≤ 1 := by
  unfold fgsm_attack at hp
  simp only [List.mem_map] at hp
  obtain ⟨q, -, rfl⟩ := hp
  unfold clamp
  constructor
  · exact le_min (le_max_right q 0) zero_le_one
  · exact min_le_right _ _

/-- Witness for C2 at a concrete input. -/
theorem fgsm_attack_pixel_range_witness :
    0 ≤ ((7:ℚ)/10) ∧ ((7:ℚ)/10) ≤ 1 :=
  fgsm_attack_pixel_range [(1:ℚ)/2] (1/5) [3] (7/10)
    (by norm_num [fgsm_attack, clamp, sign])

lemma denorm_then_normalize (batch : List ℚ) :
    normalize (denorm batch mnist_mean mnist_std) mnist_mean mnist_std = batch := by
  unfold normalize denorm
  rw [List.map_map]
  have : ∀ x : ℚ, (x * mnist_std + mnist_mean - mnist_mean) / mnist_std = x := by
    intro x
    rw [add_sub_cancel_right, mul_div_assoc, div_self (by norm_num [mnist_std]), mul_one]
  calc batch.map ((fun x => (x - mnist_mean) / mnist_std) ∘ fun x => x * mnist_std + mnist_mean)
      = batch.map id := List.map_congr_left (fun x _ => this x)
    _ = batch := List.map_id batch

/-- C7: `denorm` followed by re-normalization with the same MNIST constants
is the identity: `((x * std + mean) - mean) / std = x` in exact arithmetic,
since `std = 0.3081 ≠ 0`. -/
theorem normalize_denorm (batch : List ℚ) :
    normalize (denorm batch mnist_mean mnist_std) mnist_mean mnist_std = batch :=
  denorm_then_normalize batch

lemma sign_cases (x : ℚ) : sign x = -1 ∨ sign x = 0 ∨ sign x = 1 := by
  unfold sign
  split
  · exact Or.inl rfl
  · split
    · exact Or.inr (Or.inl rfl)
    · exact Or.inr (Or.inr rfl)

lemma abs_sign_le_one (x : ℚ) : |sign x| ≤ 1 := by
  rcases sign_cases x with h | h | h <;> rw [h] <;> norm_num

lemma clamp_perturb_bound (x d eps : ℚ) (heps : 0 ≤ eps) (hx0 : 0 ≤ x) (hx1 : x ≤ 1)
    (hd : |d| ≤ eps) : |clamp (x + d) 0 1 - x| ≤ eps := by
  rw [abs_le] at hd
  obtain ⟨h1, h2⟩ := hd
  unfold clamp
  rw [abs_le]
  have hlo : x - eps ≤ min (max (x + d) 0) 1 := by
    have hb : x - eps ≤ max (x + d) 0 := le_trans (by linarith) (le_max_left (x + d) 0)
    exact le_min hb (by linarith)
  have hhi : min (max (x + d) 0) 1 ≤ x + eps := by
    have hm : min (max (x + d) 0) 1 ≤ max (x + d) 0 := min_le_left _ _
    have hb : max (x + d) 0 ≤ x + eps := max_le (by linarith) (by linarith)
    linarith
  exact ⟨by linarith, by linarith⟩

lemma fgsm_attack_cons (a b eps : ℚ) (img g : List ℚ) :
    fgsm_attack (a :: img) eps (b :: g) =
      clamp (a + eps * sign b) 0 1 :: fgsm_attack img eps g := by
  simp only [fgsm_attack, List.map_cons, List.zipWith_cons_cons]

lemma clamp01_of_range (x : ℚ) (h0 : 0 ≤ x) (h1 : x ≤ 1) : clamp x 0 1 = x := by
  unfold clamp
  rw [max_eq_left h0, min_eq_left h1]

lemma fgsm_attack_zero (image data_grad : List ℚ)
    (hrange : ∀ p ∈ image, 0 ≤ p ∧ p ≤ 1)
    (hlen : data_grad.length = image.length) :
    fgsm_attack image 0 data_grad = image := by
  induction image generalizing data_grad with
  | nil =>
    have : data_grad = [] := List.length_eq_zero.mp hlen
    subst this
    rfl
  | cons a img ih =>
    cases data_grad with
    | nil => simp at hlen
    | cons b g =>
      rw [fgsm_attack_cons]
      have ha := hrange a (List.mem_cons_self a img)
      rw [zero_mul, add_zero, clamp01_of_range a ha.1 ha.2,
        ih g (fun p hp => hrange p (List.mem_cons_of_mem a hp))
          (by simpa using hlen)]

lemma fgsm_attack_abs_le (epsilon : ℚ) (heps : 0 ≤ epsilon) :
    ∀ (image data_grad : List ℚ), (∀ p ∈ image, 0 ≤ p ∧ p ≤ 1) →
      ∀ pq ∈ image.zip (fgsm_attack image epsilon data_grad),
        |pq.2 - pq.1| ≤ epsilon := by
  intro image
  induction image with
  | nil =>
    intro g _ pq hpq
    simp [List.zip] at hpq
  | cons a img ih =>
    intro g hrange pq hpq
    cases g with
    | nil => simp [fgsm_attack, List.zip] at hpq
    | cons b g =>
      rw [fgsm_attack_cons, List.zip_cons_cons, List.mem_cons] at hpq
      rcases hpq with rfl | hpq
      · have ha := hrange a (List.mem_cons_self a img)
        refine clamp_perturb_bound a (epsilon * sign b) epsilon heps ha.1 ha.2 ?_
        calc |epsilon * sign b| = |epsilon| * |sign b| := abs_mul _ _
          _ ≤ |epsilon| * 1 :=
              mul_le_mul_of_nonneg_left (abs_sign_le_one b) (abs_nonneg _)
          _ = epsilon := by rw [mul_one, abs_of_nonneg heps]
      · exact ih g (fun p hp => hrange p (List.mem_cons_of_mem a hp)) pq hpq

/-- C5: for `epsilon ≥ 0` and an image with pixels in `[0,1]`, every pixel of
`fgsm_attack(image, epsilon, data_grad)` differs from the corresponding input
pixel by at most `epsilon` (the pairs of `zip` match input pixel with output
pixel), and for `epsilon = 0` the image is returned unchanged. -/
theorem fgsm_attack_perturbation_bound (image data_grad : List ℚ) (epsilon : ℚ)
    (heps : 0 ≤ epsilon)
    (hrange : ∀ p ∈ image, 0 ≤ p ∧ p ≤ 1)
    (hlen : data_grad.length = image.length) :
    (∀ pq ∈ image.zip (fgsm_attack image epsilon data_grad), |pq.2 - pq.1| ≤ epsilon)
    ∧ (epsilon = 0 → fgsm_attack image epsilon data_grad = image) := by
  constructor
  · exact fgsm_attack_abs_le epsilon heps image data_grad hrange
  · intro h
    subst h
    exact fgsm_attack_zero image data_grad hrange hlen

/-- Witness for C5 at a concrete input. -/
theorem fgsm_attack_perturbation_bound_witness :
    (∀ pq ∈ [((1:ℚ)/2)].zip (fgsm_attack [(1:ℚ)/2] (1/10) [3]), |pq.2 - pq.1| ≤ (1:ℚ)/10)
    ∧ ((1:ℚ)/10 = 0 → fgsm_attack [(1:ℚ)/2] (1/10) [3] = [(1:ℚ)/2]) :=
  fgsm_attack_perturbation_bound [(1:ℚ)/2] [3] (1/10) (by norm_num)
    (by norm_num) (by norm_num)

lemma testStep_correct (m : Model) (eps : ℚ) (st : StepState) (s : Sample) :
    (testStep m eps st s).correct =
      st.correct + if attackSurvives m eps s then 1 else 0 := by
  unfold testStep attackSurvives
  by_cases h1 : initPred m s = s.target
  · by_cases h2 : finalPred m eps s = s.target
    · simp [h1, h2]
    · simp [h1, h2]
  · simp [h1]

lemma testStep_visited (m : Model) (eps : ℚ) (st : StepState) (s : Sample) :
    (testStep m eps st s).visited = st.visited + 1 := by
  unfold testStep
  by_cases h1 : initPred m s = s.target
  · by_cases h2 : finalPred m eps s = s.target <;> simp [h1, h2]
  · simp [h1]

lemma testStep_forwards (m : Model) (eps : ℚ) (st : StepState) (s : Sample) :
    (testStep m eps st s).forwards =
      st.forwards + if initCorrect m s then 2 else 1 := by
  unfold testStep initCorrect
  by_cases h1 : initPred m s = s.target
  · by_cases h2 : finalPred m eps s = s.target <;> simp [h1, h2]
  · simp [h1]

lemma testStep_backwards (m : Model) (eps : ℚ) (st : StepState) (s : Sample) :
    (testStep m eps st s).backwards =
      st.backwards + if initCorrect m s then 1 else 0 := by
  unfold testStep initCorrect
  by_cases h1 : initPred m s = s.target
  · by_cases h2 : finalPred m eps s = s.target <;> simp [h1, h2]
  · simp [h1]

lemma foldl_correct (m : Model) (eps : ℚ) :
    ∀ (l : List Sample) (st : StepState),
      (l.foldl (testStep m eps) st).correct =
        st.correct + l.countP (attackSurvives m eps) := by
  intro l
  induction l with
  | nil => intro st; simp
  | cons s t ih =>
    intro st
    rw [List.foldl_cons, ih, List.countP_cons, testStep_correct]
    by_cases h : attackSurvives m eps s <;> simp [h] <;> omega

lemma foldl_visited (m : Model) (eps : ℚ) :
    ∀ (l : List Sample) (st : StepState),
      (l.foldl (testStep m eps) st).visited = st.visited + l.length := by
  intro l
  induction l with
  | nil => intro st; simp
  | cons s t ih =>
    intro st
    rw [List.foldl_cons, ih, testStep_visited, List.length_cons]
    omega

lemma foldl_forwards (m : Model) (eps : ℚ) :
    ∀ (l : List Sample) (st : StepState),
      (l.foldl (testStep m eps) st).forwards =
        st.forwards + l.length + l.countP (initCorrect m) := by
  intro l
  induction l with
  | nil => intro st; simp
  | cons s t ih =>
    intro st
    rw [List.foldl_cons, ih, testStep_forwards, List.countP_cons, List.length_cons]
    by_cases h : initCorrect m s <;> simp [h] <;> omega

lemma foldl_backwards (m : Model) (eps : ℚ) :
    ∀ (l : List Sample) (st : StepState),
      (l.foldl (testStep m eps) st).backwards =
        st.backwards + l.countP (initCorrect m) := by
  intro l
  induction l with
  | nil => intro st; simp
  | cons s t ih =>
    intro st
    rw [List.foldl_cons, ih, testStep_backwards, List.countP_cons]
    by_cases h : initCorrect m s <;> simp [h] <;> omega

lemma testFold_correct_eq_countP (m : Model) (eps : ℚ) (l : List Sample) :
    (testFold m eps l).correct = l.countP (attackSurvives m eps) := by
  rw [testFold, foldl_correct]
  simp

/-- C8: `test` makes exactly one pass over the test set (the fold visits
every sample exactly once and, being a total function, terminates on every
finite test set); per visited sample there is at most one backward pass and
at most two forward passes, so the totals are bounded by `2 * n` forward
passes and `n` backward passes. -/
theorem test_single_pass (m : Model) (eps : ℚ) (l : List Sample) :
    (testFold m eps l).visited = l.length
    ∧ (testFold m eps l).forwards ≤ 2 * l.length
    ∧ (testFold m eps l).backwards ≤ l.length := by
  refine ⟨?_, ?_, ?_⟩
  · rw [testFold, foldl_visited]
    simp
  · rw [testFold, foldl_forwards]
    have := List.countP_le_length (l := l) (initCorrect m)
    simp only []
    omega
  · rw [testFold, foldl_backwards]
    have := List.countP_le_length (l := l) (initCorrect m)
    simp only []
    omega

/-- C4: the accuracy returned by `test` is `c / n` where `n` is the number
of batch-size-1 batches (samples) in the test set and `c` counts exactly
the samples that are correctly classified before the attack and still
correctly classified after the perturbed, re-normalized image is
re-classified (`attackSurvives`); initially misclassified samples are
skipped and never counted, so the accuracy lies in `[0, 1]`. -/
theorem test_accuracy_characterization (m : Model) (eps : ℚ) (l : List Sample)
    (h : 0 < l.length) :
    (test m eps l).1 = (l.countP (attackSurvives m eps) : ℚ) / (l.length : ℚ)
    ∧ 0 ≤ (test m eps l).1 ∧ (test m eps l).1 ≤ 1 := by
  have hchar : (test m eps l).1
      = (l.countP (attackSurvives m eps) : ℚ) / (l.length : ℚ) := by
    rw [test, testFold_correct_eq_countP]
  refine ⟨hchar, ?_, ?_⟩
  · rw [hchar]
    exact div_nonneg (by positivity) (by positivity)
  · rw [hchar]
    rw [div_le_one (by exact_mod_cast h)]
    exact_mod_cast List.countP_le_length (l := l) (attackSurvives m eps)

/-- Witness for C4 at a concrete model and one-element test set. -/
theorem test_accuracy_characterization_witness :
    (test constModel 0 [sampleA]).1
        = (([sampleA] : List Sample).countP (attackSurvives constModel 0) : ℚ)
            / (([sampleA] : List Sample).length : ℚ)
    ∧ 0 ≤ (test constModel 0 [sampleA]).1 ∧ (test constModel 0 [sampleA]).1 ≤ 1 :=
  test_accuracy_characterization constModel 0 [sampleA] (by simp)

lemma denorm_length (batch : List ℚ) (mean std : ℚ) :
    (denorm batch mean std).length = batch.length := by
  unfold denorm
  exact List.length_map batch _

lemma finalPred_zero (m : Model) (s : Sample) (h : wellFormed m s) :
    finalPred m 0 s = initPred m s := by
  unfold finalPred initPred perturbedData
  rw [fgsm_attack_zero _ _ h.2 (by rw [denorm_length]; exact h.1),
    denorm_then_normalize]

lemma attackSurvives_zero (m : Model) (s : Sample) (h : wellFormed m s) :
    attackSurvives m 0 s = initCorrect m s := by
  unfold attackSurvives initCorrect
  rw [finalPred_zero m s h]
  simp [and_self]

lemma countP_survives_le_initCorrect (m : Model) (eps : ℚ) (l : List Sample) :
    l.countP (attackSurvives m eps) ≤ l.countP (initCorrect m) := by
  refine List.countP_mono_left (fun s _ hs => ?_)
  simp only [attackSurvives, decide_eq_true_eq] at hs
  simp only [initCorrect, decide_eq_true_eq]
  exact hs.1

/-- C3 (amended): the accuracy `test` returns at any `epsilon` is at most the
accuracy it returns at `epsilon = 0` (for samples produced by the notebook's
pipeline, the `epsilon = 0` run reproduces the clean accuracy, and every
sample counted at any `epsilon` is in particular initially correct). The
original claim — accuracy non-increasing between arbitrary epsilon values —
is refuted by `test_accuracy_not_monotone_cex`. -/
theorem test_accuracy_le_eps_zero (m : Model) (eps : ℚ) (l : List Sample)
    (hwf : ∀ s ∈ l, wellFormed m s) :
    (test m eps l).1 ≤ (test m 0 l).1 := by
  have h0 : l.countP (attackSurvives m 0) = l.countP (initCorrect m) :=
    List.countP_congr (fun s hs => by rw [attackSurvives_zero m s (hwf s hs)])
  have hle : l.countP (attackSurvives m eps) ≤ l.countP (attackSurvives m 0) := by
    rw [h0]
    exact countP_survives_le_initCorrect m eps l
  unfold test
  rw [testFold_correct_eq_countP, testFold_correct_eq_countP]
  rcases Nat.eq_zero_or_pos l.length with hn | hn
  · rw [hn]
    norm_num
  · have hn' : (0:ℚ) < (l.length : ℚ) := by exact_mod_cast hn
    exact (div_le_div_iff_of_pos_right hn').mpr (by exact_mod_cast hle)

/-- Witness for the amended C3 at a concrete model and test set. -/
theorem test_accuracy_le_eps_zero_witness :
    (test constModel (3/10) [sampleA]).1 ≤ (test constModel 0 [sampleA]).1 :=
  test_accuracy_le_eps_zero constModel (3/10) [sampleA]
    (by
      intro s hs
      rw [List.mem_singleton] at hs
      subst hs
      constructor
      · norm_num [constModel, sampleA]
      · norm_num [denorm, sampleA, mnist_mean, mnist_std])

/-- Counterexample to C3 as stated: with `nonMonotoneModel`, the accuracy at
`epsilon = 2/10` exceeds the accuracy at the smaller `epsilon = 1/10`, so the
accuracy returned by `test` is not non-increasing in epsilon. -/
theorem test_accuracy_not_monotone_cex :
    ((1:ℚ)/10 ≤ 2/10)
    ∧ ¬ ((test nonMonotoneModel (2/10) [halfSample]).1
          ≤ (test nonMonotoneModel (1/10) [halfSample]).1) := by
  constructor
  · norm_num
  · have h1 : (test nonMonotoneModel (1/10) [halfSample]).1 = 0 := by
      norm_num [test, testFold, testStep, initPred, finalPred, perturbedData,
        denorm, normalize, fgsm_attack, clamp, sign, min_def, max_def,
        nonMonotoneModel, halfSample, mnist_mean, mnist_std]
    have h2 : (test nonMonotoneModel (2/10) [halfSample]).1 = 1 := by
      norm_num [test, testFold, testStep, initPred, finalPred, perturbedData,
        denorm, normalize, fgsm_attack, clamp, sign, min_def, max_def,
        nonMonotoneModel, halfSample, mnist_mean, mnist_std]
    rw [h1, h2]
    norm_num

lemma testStep_adv_cases (m : Model) (eps : ℚ) (st : StepState) (s : Sample) :
    (testStep m eps st s).adv_examples = st.adv_examples
    ∨ ((testStep m eps st s).adv_examples
        = st.adv_examples ++ [(initPred m s, finalPred m eps s, perturbedData m eps s)]
        ∧ st.adv_examples.length < 5
        ∧ initPred m s = s.target
        ∧ (eps = 0 ∨ finalPred m eps s ≠ s.target)) := by
  unfold testStep
  by_cases h1 : initPred m s = s.target
  · by_cases h2 : finalPred m eps s = s.target
    · by_cases h3 : eps = 0 ∧ st.adv_examples.length < 5
      · obtain ⟨heps, hlt⟩ := h3
        subst heps
        right
        refine ⟨?_, hlt, h1, Or.inl rfl⟩
        simp [h1, h2, hlt]
      · left
        simp [h1, h2, h3]
    · by_cases h4 : st.adv_examples.length < 5
      · right
        refine ⟨?_, h4, h1, Or.inr h2⟩
        simp [h1, h2, h4]
      · left
        simp [h1, h2, h4]
  · left
    simp [h1]

lemma foldl_adv_len (m : Model) (eps : ℚ) :
    ∀ (l : List Sample) (st : StepState),
      st.adv_examples.length ≤ 5 →
      (l.foldl (testStep m eps) st).adv_examples.length ≤ 5 := by
  intro l
  induction l with
  | nil =>
    intro st h
    simpa using h
  | cons s t ih =>
    intro st h
    rw [List.foldl_cons]
    refine ih _ ?_
    rcases testStep_adv_cases m eps st s with hcase | ⟨heq, hlt, -, -⟩
    · rw [hcase]
      exact h
    · rw [heq, List.length_append, List.length_singleton]
      omega

lemma foldl_adv_invariant (m : Model) (eps : ℚ) (P : ℕ × ℕ × List ℚ → Prop) :
    ∀ (l : List Sample) (st : StepState),
      (∀ s ∈ l, initPred m s = s.target → (eps = 0 ∨ finalPred m eps s ≠ s.target) →
        P (initPred m s, finalPred m eps s, perturbedData m eps s)) →
      (∀ e ∈ st.adv_examples, P e) →
      ∀ e ∈ (l.foldl (testStep m eps) st).adv_examples, P e := by
  intro l
  induction l with
  | nil =>
    intro st _ hst e he
    simp only [List.foldl_nil] at he
    exact hst e he
  | cons s t ih =>
    intro st hl hst e he
    rw [List.foldl_cons] at he
    refine ih _ (fun s' hs' => hl s' (List.mem_cons_of_mem s hs')) ?_ e he
    intro e' he'
    rcases testStep_adv_cases m eps st s with hcase | ⟨heq, -, h1, h2⟩
    · rw [hcase] at he'
      exact hst e' he'
    · rw [heq] at he'
      rcases List.mem_append.mp he' with hmem | hmem
      · exact hst e' hmem
      · rw [List.mem_singleton] at hmem
        subst hmem
        exact hl s (List.mem_cons_self s t) h1 h2

lemma test_adv_eq (m : Model) (eps : ℚ) (l : List Sample) :
    (test m eps l).2 = (testFold m eps l).adv_examples := rfl

/-- C9 (amended): the `adv_examples` list returned by `test` has length at
most 5 and, for `epsilon ≠ 0`, every stored entry records a successful
adversarial example — its final prediction (second component) differs from
its stored initial prediction (first component), which equals the true label
because only initially-correct samples reach the attack; for `epsilon = 0`
and samples produced by the notebook's pipeline (`wellFormed`), every stored
entry is a correctly classified example (final prediction equals true
label). The pipeline hypothesis on the `epsilon = 0` clause is necessary:
see `test_adv_eps_zero_cex`. -/
theorem test_adv_examples_invariant (m : Model) (eps : ℚ) (l : List Sample)
    (hwf : eps = 0 → ∀ s ∈ l, wellFormed m s) :
    (test m eps l).2.length ≤ 5
    ∧ (eps ≠ 0 → ∀ e ∈ (test m eps l).2, e.2.1 ≠ e.1)
    ∧ (eps = 0 → ∀ e ∈ (test m eps l).2, e.2.1 = e.1) := by
  refine ⟨?_, ?_, ?_⟩
  · rw [test_adv_eq, testFold]
    exact foldl_adv_len m eps l _ (by simp)
  · intro heps
    rw [test_adv_eq, testFold]
    refine foldl_adv_invariant m eps (fun e => e.2.1 ≠ e.1) l _ ?_ (by simp)
    intro s _ h1 h2
    rcases h2 with h2 | h2
    · exact absurd h2 heps
    · simpa [h1] using h2
  · intro heps
    subst heps
    rw [test_adv_eq, testFold]
    refine foldl_adv_invariant m 0 (fun e => e.2.1 = e.1) l _ ?_ (by simp)
    intro s hs h1 _
    simp only []
    rw [finalPred_zero m s (hwf rfl s hs)]

/-- Witness for the amended C9 at a concrete model and test set. -/
theorem test_adv_examples_invariant_witness :
    (test constModel 0 [sampleA]).2.length ≤ 5
    ∧ ((0:ℚ) ≠ 0 → ∀ e ∈ (test constModel 0 [sampleA]).2, e.2.1 ≠ e.1)
    ∧ ((0:ℚ) = 0 → ∀ e ∈ (test constModel 0 [sampleA]).2, e.2.1 = e.1) :=
  test_adv_examples_invariant constModel 0 [sampleA]
    (by
      intro _ s hs
      rw [List.mem_singleton] at hs
      subst hs
      constructor
      · norm_num [constModel, sampleA]
      · norm_num [denorm, sampleA, mnist_mean, mnist_std])

/-- Counterexample to C9 as stated: at `epsilon = 0`, on a sample whose
denormalized pixels leave `[0, 1]`, the clamp alters the image, the model
misclassifies it, and `test` stores an entry whose final prediction (1)
differs from the true label (0) — so not every entry stored at
`epsilon = 0` is correctly classified. -/
theorem test_adv_eps_zero_cex :
    (test outOfRangeModel 0 [outOfRangeSample]).2 = [(0, 1, [(1:ℚ)])]
    ∧ ¬ (∀ e ∈ (test outOfRangeModel 0 [outOfRangeSample]).2, e.2.1 = e.1) := by
  have hval : (test outOfRangeModel 0 [outOfRangeSample]).2 = [(0, 1, [(1:ℚ)])] := by
    norm_num [test, testFold, testStep, initPred, finalPred, perturbedData,
      denorm, normalize, fgsm_attack, clamp, sign, min_def, max_def,
      outOfRangeModel, outOfRangeSample, mnist_mean, mnist_std]
  refine ⟨hval, ?_⟩
  rw [hval]
  intro h
  have := h (0, 1, [(1:ℚ)]) (List.mem_singleton_self _)
  norm_num at this

/-- C10 (amended): the accuracy returned by `test` is the same for any two
orders in which the (shuffled) loader yields the test set — it is invariant
under permutation of the sample list. The adversarial-example list is not:
see `test_adv_order_dependent_cex`. -/
theorem test_accuracy_perm_invariant (m : Model) (eps : ℚ) (l l' : List Sample)
    (h : l.Perm l') : (test m eps l).1 = (test m eps l').1 := by
  unfold test
  rw [testFold_correct_eq_countP, testFold_correct_eq_countP,
    h.countP_eq, h.length_eq]

/-- Witness for the amended C10 at concrete reshuffled test sets. -/
theorem test_accuracy_perm_invariant_witness :
    (test constModel 0 [sampleA, sampleB]).1
      = (test constModel 0 [sampleB, sampleA]).1 :=
  test_accuracy_perm_invariant constModel 0 [sampleA, sampleB] [sampleB, sampleA]
    (List.Perm.swap sampleB sampleA [])

/-- Counterexample to C10 as stated: two runs of `test` over the same test
set in the two orders a shuffling loader can yield (`shuffle=True`) return
the same accuracy but different `adv_examples` lists, so a rerun is not
guaranteed to reproduce the same list of adversarial examples. -/
theorem test_adv_order_dependent_cex :
    (([sampleB, sampleA] : List Sample).Perm [sampleA, sampleB])
    ∧ (test constModel 0 [sampleA, sampleB]).1
        = (test constModel 0 [sampleB, sampleA]).1
    ∧ (test constModel 0 [sampleA, sampleB]).2
        ≠ (test constModel 0 [sampleB, sampleA]).2 := by
  refine ⟨List.Perm.swap sampleA sampleB [], ?_, ?_⟩
  · have ha : (test constModel 0 [sampleA, sampleB]).1 = 1 := by
      norm_num [test, testFold, testStep, initPred, finalPred, perturbedData,
        denorm, normalize, fgsm_attack, clamp, sign, min_def, max_def,
        constModel, sampleA, sampleB, mnist_mean, mnist_std]
    have hb : (test constModel 0 [sampleB, sampleA]).1 = 1 := by
      norm_num [test, testFold, testStep, initPred, finalPred, perturbedData,
        denorm, normalize, fgsm_attack, clamp, sign, min_def, max_def,
        constModel, sampleA, sampleB, mnist_mean, mnist_std]
    rw [ha, hb]
  · norm_num [test, testFold, testStep, initPred, finalPred, perturbedData,
      denorm, normalize, fgsm_attack, clamp, sign, min_def, max_def,
      constModel, sampleA, sampleB, mnist_mean, mnist_std]

/-- C6: when no file exists at the pretrained-model path, loading raises a
file-not-found error that propagates uncaught past the rest of the program
(the program installs no handler); when the file exists and holds a state
dict, loading succeeds and the run proceeds with it. -/
theorem load_pretrained_error_propagation (fs : String → Option StateDict)
    (path : String) (rest : StateDict → List ℚ) :
    (fs path = none →
      loadAndRun fs path rest = Except.error ("FileNotFoundError: " ++ path))
    ∧ (∀ sd, fs path = some sd → loadAndRun fs path rest = Except.ok (rest sd)) := by
  constructor
  · intro h
    unfold loadAndRun torchLoad
    rw [h]
    rfl
  · intro sd h
    unfold loadAndRun torchLoad
    rw [h]
    rfl

/-- Witness for C6 on a filesystem without the pretrained-model file. -/
theorem load_pretrained_error_propagation_witness :
    loadAndRun (fun _ => none) ("data/lenet_mnist_model.pth") (fun _ => [])
      = Except.error ("FileNotFoundError: " ++ "data/lenet_mnist_model.pth") :=
  (load_pretrained_error_propagation (fun _ => none)
    ("data/lenet_mnist_model.pth") (fun _ => [])).1 rfl

end FGSM
